import Mathlib

/-!
Verification of the quantus_ur segmentation/reassembly orchestration layer
(src/lib.rs) against its natural-language specification.

The layer under verification wraps a byte payload in a CBOR byte-string,
drives an external fountain-code fragment encoder to produce an ordered
fragment set of UR strings, and on the receiving side classifies, feeds and
extracts fragments through an external fountain decoder.

The external collaborators (UR grammar codec, fountain encoder/decoder,
CBOR codec) are third-party crates, explicitly out of scope per the spec;
they are modelled as an abstract interface (`UrCollab`), and theorems about
the orchestration quantify over any collaborator, with the spec's
collaborator contract appearing as hypotheses.  The hex codec, whose
behaviour the spec pins down exactly (lower-case hex, total inverse), is
modelled concretely.  Rust's `str::to_lowercase` / `str::to_uppercase` are
modelled by per-character ASCII case maps, which agree with Rust on the
ASCII strings produced and consumed by the UR machinery.

Bytes are modelled as `Nat` (reduced mod 256 where u8 arithmetic matters);
fallible Rust `Result` values are modelled as `Except`.
-/

set_option maxRecDepth 8000

deriving instance DecidableEq for Except

/-- ASCII upper-casing of one character, as Rust's `to_uppercase` acts on
ASCII: a letter in the range a-z (97-122) is shifted down by 32. -/
def upChar (c : Char) : Char :=
  if 97 ≤ c.toNat ∧ c.toNat ≤ 122 then Char.ofNat (c.toNat - 32) else c

/-- ASCII lower-casing of one character, as Rust's `to_lowercase` acts on
ASCII: a letter in the range A-Z (65-90) is shifted up by 32. -/
def lowChar (c : Char) : Char :=
  if 65 ≤ c.toNat ∧ c.toNat ≤ 90 then Char.ofNat (c.toNat + 32) else c

/-- Model of Rust `str::to_uppercase` restricted to ASCII. -/
def to_uppercase (s : String) : String := ⟨s.data.map upChar⟩

/-- Model of Rust `str::to_lowercase` restricted to ASCII. -/
def to_lowercase (s : String) : String := ⟨s.data.map lowChar⟩

/-- Error type of the external `hex` crate's `decode` (the two cases that
`hex::decode` can produce). -/
inductive FromHexError where
  | InvalidHexCharacter : Char → Nat → FromHexError
  | OddLength : FromHexError
deriving DecidableEq, Repr

/-- Value of a hexadecimal digit character, if any (0-9, a-f, A-F). -/
def hexVal (c : Char) : Option Nat :=
  if 48 ≤ c.toNat ∧ c.toNat ≤ 57 then some (c.toNat - 48)
  else if 97 ≤ c.toNat ∧ c.toNat ≤ 102 then some (c.toNat - 87)
  else if 65 ≤ c.toNat ∧ c.toNat ≤ 70 then some (c.toNat - 55)
  else none

/-- Lower-case hexadecimal digit character for a value below 16. -/
def hexDigit (n : Nat) : Char := Char.ofNat (if n < 10 then 48 + n else 87 + n)

/-- Character stream of the lower-case hex encoding of a byte list
(`hex::encode`): two digits per byte, high nibble first.  The `% 256`
reflects that the Rust bytes are `u8`. -/
def hexChars : List Nat → List Char
  | [] => []
  | b :: rest => hexDigit (b % 256 / 16) :: hexDigit (b % 16) :: hexChars rest

/-- Model of `hex::encode`: lower-case hexadecimal text of a byte list. -/
def hexEncode (bs : List Nat) : String := ⟨hexChars bs⟩

/-- Pairwise parse of an (even-length) character list as hex bytes, tracking
the character index for `InvalidHexCharacter` reports. -/
def hexDecodeAux : List Char → Nat → Except FromHexError (List Nat)
  | [], _ => .ok []
  | [_], _ => .error .OddLength
  | hi :: lo :: rest, i =>
    match hexVal hi with
    | none => .error (.InvalidHexCharacter hi i)
    | some h =>
      match hexVal lo with
      | none => .error (.InvalidHexCharacter lo (i + 1))
      | some l =>
        match hexDecodeAux rest (i + 2) with
        | .error e => .error e
        | .ok bs => .ok ((16 * h + l) :: bs)

/-- Model of `hex::decode`: rejects odd length up front, then parses digit
pairs left to right. -/
def hexDecode (s : String) : Except FromHexError (List Nat) :=
  if s.data.length % 2 = 1 then .error .OddLength else hexDecodeAux s.data 0

/-- Classification of a UR string by the external grammar decoder
(`ur::ur::Kind`). -/
inductive Kind where
  | SinglePart : Kind
  | MultiPart : Kind
deriving DecidableEq, Repr

/-- The crate's error enum `QuantusUrError` (src/lib.rs lines 9-15), exactly
as declared: four variants. -/
inductive QuantusUrError where
  | HexError : FromHexError → QuantusUrError
  | UrError : String → QuantusUrError
  | CborError : String → QuantusUrError
  | Incomplete : QuantusUrError
deriving DecidableEq, Repr

/-- Index of the variant (discriminant) of a `QuantusUrError` value: two
errors are distinguishable by matching on the variant exactly when their
indices differ. -/
def ctorIdx : QuantusUrError → Nat
  | .HexError _ => 0
  | .UrError _ => 1
  | .CborError _ => 2
  | .Incomplete => 3

/-- Result of `ur_parse_lib::keystone_ur_encoder::probe_encode`: whether the
payload is multi-part, the first (probe) fragment, and the stateful
fragment encoder when multi-part. -/
structure ProbeResult (ε : Type) where
  is_multi_part : Bool
  data : String
  encoder : Option ε
deriving DecidableEq

/-- The external collaborator interface (spec section 6): CBOR codec, UR
grammar codec, fountain fragment encoder (state type ε, state-passing in
place of Rust mutation) and fountain decode session (state type δ). -/
structure UrCollab (ε δ : Type) where
  wrapCbor : List Nat → Except String (List Nat)
  unwrapCbor : List Nat → Except String (List Nat)
  urDecode : String → Except String (Kind × List Nat)
  probeEncode : List Nat → Nat → String → Except String (ProbeResult ε)
  fragmentCount : ε → Nat
  nextPart : ε → Except String (String × ε)
  decInit : δ
  receive : δ → String → Except String δ
  complete : δ → Bool
  message : δ → Except String (Option (List Nat))

/-- The fixed UR type tag (src/lib.rs line 6). -/
def UR_TYPE : String := "quantus-sign-request"

/-- The fixed maximum fragment length (src/lib.rs line 7). -/
def MAX_FRAGMENT_LENGTH : Nat := 200

/-- The `while parts.len() < count` pull loop of `encode_internal`,
with the remaining iteration count (`count - parts.len()`, which the loop
decrements by exactly one per iteration) made explicit as `fuel`.  Each
iteration pulls `next_part` and appends its upper-casing; an encoder error
aborts the whole operation. -/
def pullGo {ε δ : Type} (C : UrCollab ε δ) :
    Nat → List String → ε → Except QuantusUrError (List String)
  | 0, parts, _ => .ok parts
  | k + 1, parts, e =>
    match C.nextPart e with
    | .error m => .error (.UrError m)
    | .ok (p, e') => pullGo C k (parts ++ [to_uppercase p]) e'

/-- The pull loop of `encode_internal` (src/lib.rs lines 56-61), entered
with the probe fragment already pushed. -/
def pullParts {ε δ : Type} (C : UrCollab ε δ) (count : Nat) (parts : List String)
    (e : ε) : Except QuantusUrError (List String) :=
  pullGo C (count - parts.length) parts e

/-- Embedding of `encode_internal` (src/lib.rs lines 37-64). -/
def encode_internal {ε δ : Type} (C : UrCollab ε δ) (payload : List Nat) :
    Except QuantusUrError (List String) :=
  match C.wrapCbor payload with
  | .error e => .error (.CborError e)
  | .ok cbor =>
    match C.probeEncode cbor MAX_FRAGMENT_LENGTH UR_TYPE with
    | .error e => .error (.UrError e)
    | .ok result =>
      if !result.is_multi_part then .ok [to_uppercase result.data]
      else
        match result.encoder with
        | none => .error (.UrError "Multi-part but no encoder returned")
        | some encoder =>
          let count := C.fragmentCount encoder
          pullParts C count [to_uppercase result.data] encoder

/-- Embedding of `encode_hex` (src/lib.rs lines 66-69). -/
def encode_hex {ε δ : Type} (C : UrCollab ε δ) (hex_payload : String) :
    Except QuantusUrError (List String) :=
  match hexDecode hex_payload with
  | .error e => .error (.HexError e)
  | .ok payload => encode_internal C payload

/-- Embedding of `encode_bytes` (src/lib.rs lines 71-73). -/
def encode_bytes {ε δ : Type} (C : UrCollab ε δ) (payload : List Nat) :
    Except QuantusUrError (List String) :=
  encode_internal C payload

/-- The `for part in ur_parts { d.receive(&part.to_lowercase())? }` loop
shared by `decode_internal` and `is_complete`: feeds every string,
lower-cased, to the decode session, stopping at the first failure. -/
def feedAll {ε δ : Type} (C : UrCollab ε δ) (d : δ) :
    List String → Except String δ
  | [] => .ok d
  | p :: rest =>
    match C.receive d (to_lowercase p) with
    | .error e => .error e
    | .ok d' => feedAll C d' rest

/-- Embedding of `decode_internal` (src/lib.rs lines 75-112). -/
def decode_internal {ε δ : Type} (C : UrCollab ε δ) (ur_parts : List String) :
    Except QuantusUrError (List Nat) :=
  match ur_parts with
  | [] => .error (.UrError "No UR parts provided")
  | first :: rest =>
    match C.urDecode (to_lowercase first) with
    | .error e => .error (.UrError e)
    | .ok (.SinglePart, decoded) =>
      match C.unwrapCbor decoded with
      | .error e => .error (.CborError e)
      | .ok bytes => .ok bytes
    | .ok (.MultiPart, _) =>
      match feedAll C C.decInit (first :: rest) with
      | .error e => .error (.UrError e)
      | .ok d =>
        if !C.complete d then .error .Incomplete
        else
          match C.message d with
          | .error e => .error (.UrError e)
          | .ok none => .error (.UrError "No message")
          | .ok (some message) =>
            match C.unwrapCbor message with
            | .error e => .error (.CborError e)
            | .ok bytes => .ok bytes

/-- Embedding of `decode_hex` (src/lib.rs lines 114-117). -/
def decode_hex {ε δ : Type} (C : UrCollab ε δ) (ur_parts : List String) :
    Except QuantusUrError String :=
  match decode_internal C ur_parts with
  | .error e => .error e
  | .ok bytes => .ok (hexEncode bytes)

/-- Embedding of `decode_bytes` (src/lib.rs lines 119-121). -/
def decode_bytes {ε δ : Type} (C : UrCollab ε δ) (ur_parts : List String) :
    Except QuantusUrError (List Nat) :=
  decode_internal C ur_parts

/-- Embedding of `is_complete` (src/lib.rs lines 123-146). -/
def is_complete {ε δ : Type} (C : UrCollab ε δ) (ur_parts : List String) : Bool :=
  match ur_parts with
  | [] => false
  | first :: rest =>
    match C.urDecode (to_lowercase first) with
    | .error _ => false
    | .ok (.SinglePart, _) => true
    | .ok (.MultiPart, _) =>
      match feedAll C C.decInit (first :: rest) with
      | .error _ => false
      | .ok d => C.complete d

/-- Trace of `k` successive successful `next_part` pulls from encoder state
`e`: the raw fragments in encoder-assigned order, and the final state.
Used to state the collaborator-side contract of the pull loop. -/
def runNext {ε δ : Type} (C : UrCollab ε δ) (e : ε) :
    Nat → Except String (List String × ε)
  | 0 => .ok ([], e)
  | k + 1 =>
    match C.nextPart e with
    | .error m => .error m
    | .ok (p, e') =>
      match runNext C e' k with
      | .error m => .error m
      | .ok (ps, e'') => .ok (p :: ps, e'')

/-- Concrete toy collaborator used to witness the theorems: a payload wrap
is a length-prefixed list, the probe is single-part exactly when the blob
fits the bound, and the multi-part session needs both of the two fragments
"ur:m1" and "ur:m2". -/
def toyC : UrCollab Nat (List String) where
  wrapCbor bs := .ok (bs.length :: bs)
  unwrapCbor blob :=
    match blob with
    | [] => .error "end of input"
    | l :: rest => if rest.length = l then .ok rest else .error "length mismatch"
  urDecode s :=
    if s = "ur:a" then .ok (.SinglePart, [2, 10, 20])
    else if s = "ur:b" then .ok (.SinglePart, [9])
    else if s = "ur:m1" then .ok (.MultiPart, [])
    else if s = "ur:m2" then .ok (.MultiPart, [])
    else .error "invalid UR"
  probeEncode blob maxLen _ty :=
    if blob.length ≤ maxLen then .ok ⟨false, "ur:a", none⟩
    else .ok ⟨true, "ur:m1", some 1⟩
  fragmentCount _ := 2
  nextPart i := if i = 1 then .ok ("ur:m2", 2) else .error "no more parts"
  decInit := []
  receive d s := if s = "ur:m1" ∨ s = "ur:m2" then .ok (s :: d) else .error "bad fragment"
  complete d := d.contains "ur:m1" && d.contains "ur:m2"
  message d :=
    if d.contains "ur:m1" && d.contains "ur:m2" then .ok (some (201 :: List.replicate 201 7))
    else .ok none

/-- Toy collaborator whose CBOR wrap fails, to exercise the CBOR-encode
error route. -/
def toyCborFail : UrCollab Nat (List String) :=
  { toyC with wrapCbor := fun _ => .error "cbor boom" }

/-- Toy collaborator whose probe encoding fails, to exercise the
fragment-generation error route. -/
def toyProbeFail : UrCollab Nat (List String) :=
  { toyC with probeEncode := fun _ _ _ => .error "probe boom" }

/-- Conversion of a valid scalar value round-trips through `Char.ofNat`. -/
theorem char_toNat_ofNat (n : Nat) (h : n < 55296) : (Char.ofNat n).toNat = n := by
  have hv : n.isValidChar := Or.inl h
  simp only [Char.ofNat, dif_pos hv]
  rfl

/-- Upper-casing a character twice is the same as doing it once. -/
theorem upChar_idem (c : Char) : upChar (upChar c) = upChar c := by
  unfold upChar
  by_cases h : 97 ≤ c.toNat ∧ c.toNat ≤ 122
  · have h2 : (Char.ofNat (c.toNat - 32)).toNat = c.toNat - 32 :=
      char_toNat_ofNat _ (by omega)
    rw [if_pos h, if_neg (by rw [h2]; omega)]
  · rw [if_neg h, if_neg h]

/-- Upper-casing a character list twice is the same as doing it once. -/
theorem map_upChar_idem (l : List Char) : (l.map upChar).map upChar = l.map upChar := by
  induction l with
  | nil => rfl
  | cons c cs ih => simp [upChar_idem, ih]

/-- Upper-casing a string twice is the same as doing it once. -/
theorem to_uppercase_idem (s : String) : to_uppercase (to_uppercase s) = to_uppercase s :=
  congrArg String.mk (map_upChar_idem s.data)

/-- Lower-case hex digits are fixed by lower-casing. -/
theorem lowChar_hexDigit : ∀ n < 16, lowChar (hexDigit n) = hexDigit n := by decide

/-- The hex character stream is fixed by character-wise lower-casing. -/
theorem map_lowChar_hexChars (bs : List Nat) : (hexChars bs).map lowChar = hexChars bs := by
  induction bs with
  | nil => rfl
  | cons b rest ih =>
    simp only [hexChars, List.map_cons, ih]
    rw [lowChar_hexDigit _ (by omega), lowChar_hexDigit _ (by omega)]

/-- The hex encoding of any byte list is already lower-case. -/
theorem to_lowercase_hexEncode (bs : List Nat) :
    to_lowercase (hexEncode bs) = hexEncode bs :=
  congrArg String.mk (map_lowChar_hexChars bs)

/-- A successful `k`-pull trace has exactly `k` fragments. -/
theorem runNext_length {ε δ : Type} (C : UrCollab ε δ) :
    ∀ (k : Nat) (e : ε) (frags : List String) (e' : ε),
    runNext C e k = .ok (frags, e') → frags.length = k := by
  intro k
  induction k with
  | zero =>
    intro e frags e' h
    simp only [runNext, Except.ok.injEq, Prod.mk.injEq] at h
    simp [← h.1]
  | succ k ih =>
    intro e frags e' h
    simp only [runNext] at h
    cases hnp : C.nextPart e with
    | error m => simp only [hnp] at h; cases h
    | ok pe =>
      obtain ⟨p, e1⟩ := pe
      simp only [hnp] at h
      cases hrn : runNext C e1 k with
      | error m => simp only [hrn] at h; cases h
      | ok pse =>
        obtain ⟨ps, e2⟩ := pse
        simp only [hrn] at h
        simp only [Except.ok.injEq, Prod.mk.injEq] at h
        obtain ⟨hf, he⟩ := h
        subst hf
        simp [ih e1 ps e2 hrn]

/-- Correctness of the pull loop: if the encoder yields the trace `frags`
over `fuel` successful pulls, the loop appends exactly the upper-casings of
that trace, in order. -/
theorem pullGo_runNext {ε δ : Type} (C : UrCollab ε δ) :
    ∀ (fuel : Nat) (e : ε) (frags : List String) (e' : ε) (parts : List String),
    runNext C e fuel = .ok (frags, e') →
    pullGo C fuel parts e = .ok (parts ++ frags.map to_uppercase) := by
  intro fuel
  induction fuel with
  | zero =>
    intro e frags e' parts h
    simp only [runNext, Except.ok.injEq, Prod.mk.injEq] at h
    simp [pullGo, ← h.1]
  | succ k ih =>
    intro e frags e' parts h
    simp only [runNext] at h
    cases hnp : C.nextPart e with
    | error m => simp only [hnp] at h; cases h
    | ok pe =>
      obtain ⟨p, e1⟩ := pe
      simp only [hnp] at h
      cases hrn : runNext C e1 k with
      | error m => simp only [hrn] at h; cases h
      | ok pse =>
        obtain ⟨ps, e2⟩ := pse
        simp only [hrn] at h
        simp only [Except.ok.injEq, Prod.mk.injEq] at h
        obtain ⟨hf, he⟩ := h
        subst hf
        simp only [pullGo, hnp]
        rw [ih e1 ps e2 (parts ++ [to_uppercase p]) hrn]
        simp

/-- Every string in a successful result of the pull loop is fixed by
upper-casing, provided the strings already pushed are. -/
theorem pullGo_upper {ε δ : Type} (C : UrCollab ε δ) :
    ∀ (fuel : Nat) (parts : List String) (e : ε) (res : List String),
    pullGo C fuel parts e = .ok res → (∀ s ∈ parts, to_uppercase s = s) →
    ∀ s ∈ res, to_uppercase s = s := by
  intro fuel
  induction fuel with
  | zero =>
    intro parts e res h hp
    simp only [pullGo, Except.ok.injEq] at h
    subst h
    exact hp
  | succ k ih =>
    intro parts e res h hp
    simp only [pullGo] at h
    cases hnp : C.nextPart e with
    | error m => rw [hnp] at h; cases h
    | ok pe =>
      obtain ⟨p, e1⟩ := pe
      rw [hnp] at h
      refine ih (parts ++ [to_uppercase p]) e1 res h ?_
      intro s hs
      rcases List.mem_append.mp hs with hs | hs
      · exact hp s hs
      · simp only [List.mem_singleton] at hs
        subst hs
        exact to_uppercase_idem p

/-- Feeding a per-string re-casing of a list is the same as feeding the
list itself: the loop lower-cases every string before the receive call. -/
theorem feedAll_recase {ε δ : Type} (C : UrCollab ε δ) (r : String → String) :
    ∀ (parts : List String) (d : δ),
    (∀ s ∈ parts, to_lowercase (r s) = to_lowercase s) →
    feedAll C d (parts.map r) = feedAll C d parts := by
  intro parts
  induction parts with
  | nil => intro d _; rfl
  | cons p ps ih =>
    intro d h
    have hp : to_lowercase (r p) = to_lowercase p := h p (by simp)
    simp only [List.map_cons, feedAll, hp]
    cases hrec : C.receive d (to_lowercase p) with
    | error e => rfl
    | ok d' => exact ih d' (fun s hs => h s (by simp [hs]))

/-- Claim C1: round-trip through the public surface.  When the CBOR wrapping
of payload `p` is at most 200 bytes — and the collaborators obey their
contract at `p`: the probe reports single-part and the UR and CBOR codecs
invert the encoding — `encode_bytes` returns exactly one fragment and
`decode_bytes` of it returns `p`.  When the wrapping exceeds 200 bytes — the
probe reports multi-part with a fragment count of at least 2, every pull
succeeds, and the fountain session reconstructs the blob from the full
fragment set — `encode_bytes` returns more than one fragment and
`decode_bytes` of the full set returns `p` exactly. -/
theorem roundTrip_public_surface {ε δ : Type} (C : UrCollab ε δ)
    (p cbor frame : List Nat) (s0 : String) (eopt : Option ε)
    (e0 e1 : ε) (n : Nat) (frags parts : List String)
    (d : δ) (msg f0 : List Nat) :
    (C.wrapCbor p = .ok cbor → cbor.length ≤ MAX_FRAGMENT_LENGTH →
      C.probeEncode cbor MAX_FRAGMENT_LENGTH UR_TYPE = .ok ⟨false, s0, eopt⟩ →
      C.urDecode (to_lowercase (to_uppercase s0)) = .ok (.SinglePart, frame) →
      C.unwrapCbor frame = .ok p →
      encode_bytes C p = .ok [to_uppercase s0] ∧
      ([to_uppercase s0] : List String).length = 1 ∧
      decode_bytes C [to_uppercase s0] = .ok p) ∧
    (C.wrapCbor p = .ok cbor → MAX_FRAGMENT_LENGTH < cbor.length →
      C.probeEncode cbor MAX_FRAGMENT_LENGTH UR_TYPE = .ok ⟨true, s0, some e0⟩ →
      C.fragmentCount e0 = n → 2 ≤ n →
      runNext C e0 (n - 1) = .ok (frags, e1) →
      parts = to_uppercase s0 :: frags.map to_uppercase →
      C.urDecode (to_lowercase (to_uppercase s0)) = .ok (.MultiPart, f0) →
      feedAll C C.decInit parts = .ok d →
      C.complete d = true →
      C.message d = .ok (some msg) →
      C.unwrapCbor msg = .ok p →
      encode_bytes C p = .ok parts ∧ 1 < parts.length ∧
      decode_bytes C parts = .ok p) := by
  constructor
  · intro hw _hle hpr hud huc
    refine ⟨?_, rfl, ?_⟩
    · simp [encode_bytes, encode_internal, hw, hpr]
    · simp [decode_bytes, decode_internal, hud, huc]
  · intro hw _hgt hpr hfc hn hrun hparts hud hfeed hcomp hmsg huc
    have hlen : frags.length = n - 1 := runNext_length C (n - 1) e0 frags e1 hrun
    have henc : encode_bytes C p = .ok parts := by
      simp only [encode_bytes, encode_internal, hw, hpr]
      simp only [pullParts, hfc]
      rw [show n - ([to_uppercase s0] : List String).length = n - 1 by simp]
      rw [pullGo_runNext C (n - 1) e0 frags e1 [to_uppercase s0] hrun]
      rw [hparts]
      simp
    refine ⟨henc, ?_, ?_⟩
    · subst hparts
      simp [hlen]
      omega
    · subst hparts
      simp only [decode_bytes, decode_internal, hud, hfeed, hcomp, hmsg, huc]
      simp

/-- Witness for claim C1 at the toy collaborator: a 2-byte payload encodes
to one fragment and decodes back; a 201-byte payload encodes to two
fragments and decodes back. -/
theorem roundTrip_public_surface_witness :
    (encode_bytes toyC [10, 20] = .ok [to_uppercase "ur:a"] ∧
      ([to_uppercase "ur:a"] : List String).length = 1 ∧
      decode_bytes toyC [to_uppercase "ur:a"] = .ok [10, 20]) ∧
    (encode_bytes toyC (List.replicate 201 7) = .ok ["UR:M1", "UR:M2"] ∧
      1 < (["UR:M1", "UR:M2"] : List String).length ∧
      decode_bytes toyC ["UR:M1", "UR:M2"] = .ok (List.replicate 201 7)) := by
  constructor
  · exact (roundTrip_public_surface toyC [10, 20] [2, 10, 20] [2, 10, 20] "ur:a" none
      0 0 2 [] [] [] [] []).1 (by decide) (by decide) (by decide) (by decide) (by decide)
  · exact (roundTrip_public_surface toyC (List.replicate 201 7)
      (201 :: List.replicate 201 7) [] "ur:m1" none 1 2 2 ["ur:m2"]
      ["UR:M1", "UR:M2"] ["ur:m2", "ur:m1"] (201 :: List.replicate 201 7) []).2
      (by decide) (by decide) (by decide) (by decide) (by decide) (by decide)
      (by decide) (by decide) (by decide) (by decide) (by decide) (by decide)

/-- Claim C2: when the probe reports multi-part, `encode_bytes` and
`encode_hex` return the probe's first fragment followed by exactly
`fragment_count - 1` pulled fragments in encoder-assigned order (all
upper-cased), so the fragment set has length exactly `fragment_count`;
when the probe reports single-part, they return exactly one fragment. -/
theorem fragment_set_size {ε δ : Type} (C : UrCollab ε δ)
    (p cbor : List Nat) (hs s0 : String) (eopt : Option ε)
    (e0 e1 : ε) (n : Nat) (frags : List String) :
    (C.wrapCbor p = .ok cbor →
      C.probeEncode cbor MAX_FRAGMENT_LENGTH UR_TYPE = .ok ⟨true, s0, some e0⟩ →
      C.fragmentCount e0 = n → 1 ≤ n →
      runNext C e0 (n - 1) = .ok (frags, e1) →
      encode_bytes C p = .ok (to_uppercase s0 :: frags.map to_uppercase) ∧
      (to_uppercase s0 :: frags.map to_uppercase).length = n ∧
      (hexDecode hs = .ok p →
        encode_hex C hs = .ok (to_uppercase s0 :: frags.map to_uppercase))) ∧
    (C.wrapCbor p = .ok cbor →
      C.probeEncode cbor MAX_FRAGMENT_LENGTH UR_TYPE = .ok ⟨false, s0, eopt⟩ →
      encode_bytes C p = .ok [to_uppercase s0] ∧
      ([to_uppercase s0] : List String).length = 1 ∧
      (hexDecode hs = .ok p → encode_hex C hs = .ok [to_uppercase s0])) := by
  constructor
  · intro hw hpr hfc hn hrun
    have hlen : frags.length = n - 1 := runNext_length C (n - 1) e0 frags e1 hrun
    have henc : encode_bytes C p = .ok (to_uppercase s0 :: frags.map to_uppercase) := by
      simp only [encode_bytes, encode_internal, hw, hpr]
      simp only [pullParts, hfc]
      rw [show n - ([to_uppercase s0] : List String).length = n - 1 by simp]
      rw [pullGo_runNext C (n - 1) e0 frags e1 [to_uppercase s0] hrun]
      simp
    refine ⟨henc, ?_, ?_⟩
    · simp [hlen]
      omega
    · intro hhex
      simp only [encode_hex, hhex]
      exact henc
  · intro hw hpr
    have henc : encode_bytes C p = .ok [to_uppercase s0] := by
      simp [encode_bytes, encode_internal, hw, hpr]
    refine ⟨henc, rfl, ?_⟩
    intro hhex
    simp only [encode_hex, hhex]
    exact henc

/-- Witness for claim C2 at the toy collaborator, in the single-part and in
the multi-part (fragment count 2) situations, for both byte and hex input. -/
theorem fragment_set_size_witness :
    (encode_bytes toyC (List.replicate 201 7) =
        .ok (to_uppercase "ur:m1" :: (["ur:m2"] : List String).map to_uppercase) ∧
      (to_uppercase "ur:m1" :: (["ur:m2"] : List String).map to_uppercase).length = 2 ∧
      (hexDecode (hexEncode (List.replicate 201 7)) = .ok (List.replicate 201 7) →
        encode_hex toyC (hexEncode (List.replicate 201 7)) =
          .ok (to_uppercase "ur:m1" :: (["ur:m2"] : List String).map to_uppercase))) ∧
    (encode_bytes toyC [10, 20] = .ok [to_uppercase "ur:a"] ∧
      ([to_uppercase "ur:a"] : List String).length = 1 ∧
      (hexDecode "0a14" = .ok [10, 20] → encode_hex toyC "0a14" = .ok [to_uppercase "ur:a"])) := by
  constructor
  · exact (fragment_set_size toyC (List.replicate 201 7) (201 :: List.replicate 201 7)
      (hexEncode (List.replicate 201 7)) "ur:m1" none 1 2 2 ["ur:m2"]).1
      (by decide) (by decide) (by decide) (by decide) (by decide)
  · exact (fragment_set_size toyC [10, 20] [2, 10, 20] "0a14" "ur:a" none
      0 0 0 []).2 (by decide) (by decide)

/-- Claim C3 (amended): for a multi-part input, decoding any NONEMPTY
prefix fed to a session that is not yet complete returns the distinct
`Incomplete` error (never a byte result), `is_complete` on that prefix is
false (and on the empty prefix it is also false), and `is_complete` on a
full set whose session reports complete is true. -/
theorem incomplete_signals_distinctly {ε δ : Type} (C : UrCollab ε δ)
    (s : String) (rest : List String) (k : Nat) (f0 : List Nat) (d dful : δ) :
    (1 ≤ k → k < (s :: rest).length →
      C.urDecode (to_lowercase s) = .ok (.MultiPart, f0) →
      feedAll C C.decInit ((s :: rest).take k) = .ok d →
      C.complete d = false →
      decode_bytes C ((s :: rest).take k) = .error .Incomplete ∧
      is_complete C ((s :: rest).take k) = false) ∧
    (is_complete C ([] : List String) = false) ∧
    (C.urDecode (to_lowercase s) = .ok (.MultiPart, f0) →
      feedAll C C.decInit (s :: rest) = .ok dful →
      C.complete dful = true →
      is_complete C (s :: rest) = true) := by
  refine ⟨?_, rfl, ?_⟩
  · intro hk _hkn hud hfeed hinc
    obtain ⟨k', rfl⟩ : ∃ k', k = k' + 1 := ⟨k - 1, by omega⟩
    rw [List.take_succ_cons] at hfeed ⊢
    constructor
    · simp [decode_bytes, decode_internal, hud, hfeed, hinc]
    · simp [is_complete, hud, hfeed, hinc]
  · intro hud hfeed hcomp
    simp [is_complete, hud, hfeed, hcomp]

/-- Counterexample to claim C3 as stated: for the toy multi-part fragment
set of size 2, the empty list is a prefix of length strictly less than 2,
yet `decode_bytes` on it returns the empty-input UR error, not
`Incomplete`. -/
theorem incomplete_empty_take_counterexample :
    encode_bytes toyC (List.replicate 201 7) = .ok ["UR:M1", "UR:M2"] ∧
    is_complete toyC ["UR:M1", "UR:M2"] = true ∧
    (0 : Nat) < (["UR:M1", "UR:M2"] : List String).length ∧
    decode_bytes toyC ((["UR:M1", "UR:M2"] : List String).take 0) ≠ .error .Incomplete ∧
    decode_bytes toyC ((["UR:M1", "UR:M2"] : List String).take 0) =
      .error (.UrError "No UR parts provided") := by
  exact ⟨by decide, by decide, by decide, by decide, by decide⟩

/-- Witness for the amended claim C3 at the toy collaborator: the length-1
prefix of the 2-fragment set yields `Incomplete` and is not complete, the
empty list is not complete, and the full set is complete. -/
theorem incomplete_signals_distinctly_witness :
    (decode_bytes toyC ((["UR:M1", "UR:M2"] : List String).take 1) = .error .Incomplete ∧
      is_complete toyC ((["UR:M1", "UR:M2"] : List String).take 1) = false) ∧
    is_complete toyC ([] : List String) = false ∧
    is_complete toyC ["UR:M1", "UR:M2"] = true := by
  refine ⟨(incomplete_signals_distinctly toyC "UR:M1" ["UR:M2"] 1 [] ["ur:m1"]
      ["ur:m2", "ur:m1"]).1 (by decide) (by decide) (by decide) (by decide) (by decide),
    (incomplete_signals_distinctly toyC "UR:M1" ["UR:M2"] 1 [] ["ur:m1"]
      ["ur:m2", "ur:m1"]).2.1,
    (incomplete_signals_distinctly toyC "UR:M1" ["UR:M2"] 1 [] ["ur:m1"]
      ["ur:m2", "ur:m1"]).2.2 (by decide) (by decide) (by decide)⟩

/-- Claim C4 (amended): for the empty input list, `decode_bytes` and
`decode_hex` fail with `UrError "No UR parts provided"` — the generic UR
error variant; the code has no separate `EmptyInputError` variant. -/
theorem empty_input_error {ε δ : Type} (C : UrCollab ε δ) :
    decode_bytes C ([] : List String) = .error (.UrError "No UR parts provided") ∧
    decode_hex C ([] : List String) = .error (.UrError "No UR parts provided") :=
  ⟨rfl, rfl⟩

/-- Counterexample to claim C4 as stated: the error returned for the empty
list carries the same variant (`UrError`) as a plain UR-decode failure, so
the empty-input failure is not a distinct error kind. -/
theorem empty_input_error_counterexample :
    decode_bytes toyC ([] : List String) = .error (.UrError "No UR parts provided") ∧
    decode_bytes toyC ["zzz"] = .error (.UrError "invalid UR") ∧
    ctorIdx (.UrError "No UR parts provided") = ctorIdx (.UrError "invalid UR") := by
  exact ⟨by decide, by decide, rfl⟩

/-- Claim C5 (amended): the error type is a tagged union with exactly the
four declared variants — `HexError`, `UrError`, `CborError`, `Incomplete` —
which are pairwise distinguishable by matching; `Incomplete` (the spec's
`IncompleteError`) and `HexError` (the spec's `HexDecodeError`) each own a
variant, but UR-encode failures, UR-decode failures and the empty-input
failure all share `UrError`, and CBOR wrap/unwrap failures share
`CborError`. -/
theorem error_taxonomy_four_variants {ε δ : Type} (C : UrCollab ε δ)
    (p f0 : List Nat) (s hs : String) (rest : List String) (m : String)
    (he : FromHexError) (d : δ) :
    ((∀ m', QuantusUrError.Incomplete ≠ .UrError m') ∧
      (∀ m', QuantusUrError.Incomplete ≠ .CborError m') ∧
      (∀ h', QuantusUrError.Incomplete ≠ .HexError h') ∧
      (∀ m' h', QuantusUrError.UrError m' ≠ .HexError h') ∧
      (∀ m' m2, QuantusUrError.UrError m' ≠ .CborError m2) ∧
      (∀ m' h', QuantusUrError.CborError m' ≠ .HexError h')) ∧
    (decode_bytes C ([] : List String) = .error (.UrError "No UR parts provided")) ∧
    (C.urDecode (to_lowercase s) = .error m →
      decode_bytes C (s :: rest) = .error (.UrError m)) ∧
    (C.wrapCbor p = .error m → encode_bytes C p = .error (.CborError m)) ∧
    (hexDecode hs = .error he → encode_hex C hs = .error (.HexError he)) ∧
    (C.urDecode (to_lowercase s) = .ok (.MultiPart, f0) →
      feedAll C C.decInit (s :: rest) = .ok d → C.complete d = false →
      decode_bytes C (s :: rest) = .error .Incomplete) := by
  constructor
  · refine ⟨?_, ?_, ?_, ?_, ?_, ?_⟩ <;> simp
  refine ⟨rfl, ?_, ?_, ?_, ?_⟩
  · intro hud
    simp [decode_bytes, decode_internal, hud]
  · intro hw
    simp [encode_bytes, encode_internal, hw]
  · intro hh
    simp [encode_hex, hh]
  · intro hud hfeed hinc
    simp [decode_bytes, decode_internal, hud, hfeed, hinc]

/-- Counterexample to claim C5 as stated: spec-distinct kinds are not
distinguishable by variant — the empty-input failure, a UR-decode failure
and a fragment-generation (UR-encode) failure all carry the `UrError`
variant, and a CBOR-encode failure carries the same variant as a
CBOR-decode failure. -/
theorem error_taxonomy_counterexample :
    decode_bytes toyC ([] : List String) = .error (.UrError "No UR parts provided") ∧
    decode_bytes toyC ["not-a-valid-ur"] = .error (.UrError "invalid UR") ∧
    encode_bytes toyProbeFail [1] = .error (.UrError "probe boom") ∧
    ctorIdx (.UrError "No UR parts provided") = ctorIdx (.UrError "invalid UR") ∧
    ctorIdx (.UrError "probe boom") = ctorIdx (.UrError "invalid UR") ∧
    encode_bytes toyCborFail [2] = .error (.CborError "cbor boom") ∧
    decode_bytes toyC ["ur:b"] = .error (.CborError "length mismatch") ∧
    ctorIdx (.CborError "cbor boom") = ctorIdx (.CborError "length mismatch") := by
  decide

/-- Witness for the amended claim C5: each error route observed at a
concrete toy input. -/
theorem error_taxonomy_four_variants_witness :
    decode_bytes toyC ["zzz"] = .error (.UrError "invalid UR") ∧
    encode_bytes toyCborFail [1] = .error (.CborError "cbor boom") ∧
    encode_hex toyC "0z" = .error (.HexError (.InvalidHexCharacter 'z' 1)) ∧
    decode_bytes toyC ["UR:M1"] = .error .Incomplete := by
  exact ⟨(error_taxonomy_four_variants toyC [] [] "zzz" "0z" [] "invalid UR"
      .OddLength ([] : List String)).2.2.1 (by decide),
    (error_taxonomy_four_variants toyCborFail [1] [] "zzz" "0z" [] "cbor boom"
      .OddLength ([] : List String)).2.2.2.1 (by decide),
    (error_taxonomy_four_variants toyC [] [] "zzz" "0z" [] "invalid UR"
      (.InvalidHexCharacter 'z' 1) ([] : List String)).2.2.2.2.1 (by decide),
    (error_taxonomy_four_variants toyC [] [] "UR:M1" "0z" [] "invalid UR"
      .OddLength ["ur:m1"]).2.2.2.2.2 (by decide) (by decide) (by decide)⟩

/-- Claim C6: decoding and the completeness probe are case-insensitive.
Re-casing every string of the input (any per-string transformation that
preserves the lower-cased text, which covers lower-, upper- and
mixed-casing) changes nothing in the results of `decode_bytes`,
`decode_hex` and `is_complete`. -/
theorem case_insensitive_decode {ε δ : Type} (C : UrCollab ε δ)
    (parts : List String) (r : String → String)
    (h : ∀ s ∈ parts, to_lowercase (r s) = to_lowercase s) :
    decode_bytes C (parts.map r) = decode_bytes C parts ∧
    decode_hex C (parts.map r) = decode_hex C parts ∧
    is_complete C (parts.map r) = is_complete C parts := by
  have hdec : decode_internal C (parts.map r) = decode_internal C parts := by
    cases parts with
    | nil => rfl
    | cons p ps =>
      have hp : to_lowercase (r p) = to_lowercase p := h p (by simp)
      have hfeed := feedAll_recase C r (p :: ps) C.decInit h
      simp only [List.map_cons] at hfeed
      simp only [List.map_cons, decode_internal, hp, hfeed]
  refine ⟨hdec, ?_, ?_⟩
  · simp only [decode_hex, hdec]
  · cases parts with
    | nil => rfl
    | cons p ps =>
      have hp : to_lowercase (r p) = to_lowercase p := h p (by simp)
      have hfeed := feedAll_recase C r (p :: ps) C.decInit h
      simp only [List.map_cons] at hfeed
      simp only [List.map_cons, is_complete, hp, hfeed]

/-- Witness for claim C6: lower-casing the toy two-fragment set changes
none of the three public decode-side results. -/
theorem case_insensitive_decode_witness :
    decode_bytes toyC ((["UR:M1", "UR:M2"] : List String).map to_lowercase) =
      decode_bytes toyC ["UR:M1", "UR:M2"] ∧
    decode_hex toyC ((["UR:M1", "UR:M2"] : List String).map to_lowercase) =
      decode_hex toyC ["UR:M1", "UR:M2"] ∧
    is_complete toyC ((["UR:M1", "UR:M2"] : List String).map to_lowercase) =
      is_complete toyC ["UR:M1", "UR:M2"] :=
  case_insensitive_decode toyC ["UR:M1", "UR:M2"] to_lowercase (by decide)

/-- Claim C7: `is_complete` is a total boolean function — false on the
empty list, false when classification of the first string fails, true when
it classifies single-part, false when some receive call fails, and the
session's completeness flag when all strings feed successfully; being
`Bool`-valued it can return no error at all, and its definition never
reaches message extraction or the CBOR codec. -/
theorem is_complete_total {ε δ : Type} (C : UrCollab ε δ)
    (s : String) (rest : List String) (f : List Nat) (em : String) (d : δ) :
    is_complete C ([] : List String) = false ∧
    (C.urDecode (to_lowercase s) = .error em → is_complete C (s :: rest) = false) ∧
    (C.urDecode (to_lowercase s) = .ok (.SinglePart, f) →
      is_complete C (s :: rest) = true) ∧
    (C.urDecode (to_lowercase s) = .ok (.MultiPart, f) →
      feedAll C C.decInit (s :: rest) = .error em →
      is_complete C (s :: rest) = false) ∧
    (C.urDecode (to_lowercase s) = .ok (.MultiPart, f) →
      feedAll C C.decInit (s :: rest) = .ok d →
      is_complete C (s :: rest) = C.complete d) := by
  refine ⟨rfl, ?_, ?_, ?_, ?_⟩
  · intro hud
    simp [is_complete, hud]
  · intro hud
    simp [is_complete, hud]
  · intro hud hfeed
    simp [is_complete, hud, hfeed]
  · intro hud hfeed
    simp [is_complete, hud, hfeed]

/-- Witness for claim C7 at the toy collaborator: the empty list, an
invalid UR string, a single-part string, a failing receive, and a
successful multi-part feed. -/
theorem is_complete_total_witness :
    is_complete toyC ([] : List String) = false ∧
    is_complete toyC ["not-a-valid-ur"] = false ∧
    is_complete toyC ["UR:A"] = true ∧
    is_complete toyC ["ur:m2", "bad"] = false ∧
    is_complete toyC ["UR:M1"] = toyC.complete ["ur:m1"] := by
  refine ⟨(is_complete_total toyC "x" [] [] "e" ([] : List String)).1,
    (is_complete_total toyC "not-a-valid-ur" [] [] "invalid UR" ([] : List String)).2.1
      (by decide),
    (is_complete_total toyC "UR:A" [] [2, 10, 20] "e" ([] : List String)).2.2.1 (by decide),
    (is_complete_total toyC "ur:m2" ["bad"] [] "bad fragment" ([] : List String)).2.2.2.1
      (by decide) (by decide),
    (is_complete_total toyC "UR:M1" [] [] "e" ["ur:m1"]).2.2.2.2 (by decide) (by decide)⟩

/-- Claim C8: when the first string classifies as single-part, decoding
consults only that first entry — whatever follows it, the result of
`decode_bytes` is the same as on the singleton list. -/
theorem single_part_first_only {ε δ : Type} (C : UrCollab ε δ)
    (first : String) (rest : List String) (frame : List Nat)
    (h : C.urDecode (to_lowercase first) = .ok (.SinglePart, frame)) :
    decode_bytes C (first :: rest) = decode_bytes C [first] := by
  simp [decode_bytes, decode_internal, h]

/-- Witness for claim C8: appending junk after the toy single-part
fragment does not change the decode result. -/
theorem single_part_first_only_witness :
    decode_bytes toyC ["UR:A", "junk", "ur:m1"] = decode_bytes toyC ["UR:A"] :=
  single_part_first_only toyC "UR:A" ["junk", "ur:m1"] [2, 10, 20] (by decide)

/-- Claim C9: every string in a successful result of `encode_bytes` or
`encode_hex` equals its own upper-casing, in the single-part and in the
multi-part case alike. -/
theorem encode_output_uppercase {ε δ : Type} (C : UrCollab ε δ)
    (p : List Nat) (hs : String) (parts qarts : List String) :
    (encode_bytes C p = .ok parts → ∀ s ∈ parts, to_uppercase s = s) ∧
    (encode_hex C hs = .ok qarts → ∀ s ∈ qarts, to_uppercase s = s) := by
  have key : ∀ (q : List Nat) (res : List String),
      encode_internal C q = .ok res → ∀ s ∈ res, to_uppercase s = s := by
    intro q res h
    rw [encode_internal] at h
    split at h
    · cases h
    · split at h
      · cases h
      · split at h
        · simp only [Except.ok.injEq] at h
          subst h
          intro s hsm
          simp only [List.mem_singleton] at hsm
          subst hsm
          exact to_uppercase_idem _
        · split at h
          · cases h
          · rw [pullParts] at h
            refine pullGo_upper C _ _ _ res h ?_
            intro s hsm
            simp only [List.mem_singleton] at hsm
            subst hsm
            exact to_uppercase_idem _
  constructor
  · intro h
    exact key p parts h
  · intro h
    rw [encode_hex] at h
    split at h
    · cases h
    · rename_i payload hpl
      exact key payload qarts h

/-- Witness for claim C9: each concrete fragment the toy collaborator
emits, in the single-part and in the multi-part case, is fixed by
upper-casing. -/
theorem encode_output_uppercase_witness :
    to_uppercase "UR:A" = "UR:A" ∧ to_uppercase "UR:M1" = "UR:M1" ∧
    to_uppercase "UR:M2" = "UR:M2" := by
  refine ⟨(encode_output_uppercase toyC [10, 20] "0a14" ["UR:A"] ["UR:A"]).1
      (by decide) "UR:A" (by simp),
    (encode_output_uppercase toyC (List.replicate 201 7) "0a14"
      ["UR:M1", "UR:M2"] ["UR:A"]).1 (by decide) "UR:M1" (by simp),
    (encode_output_uppercase toyC (List.replicate 201 7) "0a14"
      ["UR:M1", "UR:M2"] ["UR:A"]).1 (by decide) "UR:M2" (by simp)⟩

/-- Claim C10: the hex and byte surfaces agree.  `decode_hex` succeeds with
the lower-case hex encoding of exactly the bytes `decode_bytes` returns,
fails with exactly the error `decode_bytes` fails with, and for a
well-formed hex string `encode_hex` equals `encode_bytes` of the decoded
bytes (a malformed hex string yields the corresponding `HexError`). -/
theorem hex_byte_agreement {ε δ : Type} (C : UrCollab ε δ)
    (parts : List String) (h : String) (b p : List Nat)
    (e : QuantusUrError) (he : FromHexError) :
    (decode_bytes C parts = .ok b →
      decode_hex C parts = .ok (hexEncode b) ∧
      to_lowercase (hexEncode b) = hexEncode b) ∧
    (decode_bytes C parts = .error e ↔ decode_hex C parts = .error e) ∧
    (hexDecode h = .ok p → encode_hex C h = encode_bytes C p) ∧
    (hexDecode h = .error he → encode_hex C h = .error (.HexError he)) := by
  refine ⟨?_, ?_, ?_, ?_⟩
  · intro hd
    rw [decode_bytes] at hd
    exact ⟨by simp [decode_hex, hd], to_lowercase_hexEncode b⟩
  · rw [decode_bytes, decode_hex]
    cases hdi : decode_internal C parts with
    | error a => simp
    | ok bs => simp
  · intro hh
    simp [encode_hex, encode_bytes, hh]
  · intro hh
    simp [encode_hex, hh]

/-- Witness for claim C10 at the toy collaborator: the hex result of a
successful decode, agreement of the two encode surfaces on a well-formed
hex string, and the `HexError` route on a malformed one. -/
theorem hex_byte_agreement_witness :
    (decode_hex toyC ["UR:A"] = .ok (hexEncode [10, 20]) ∧
      to_lowercase (hexEncode [10, 20]) = hexEncode [10, 20]) ∧
    encode_hex toyC "0a14" = encode_bytes toyC [10, 20] ∧
    encode_hex toyC "4z" = .error (.HexError (.InvalidHexCharacter 'z' 1)) := by
  refine ⟨(hex_byte_agreement toyC ["UR:A"] "0a14" [10, 20] [10, 20]
      .Incomplete .OddLength).1 (by decide),
    (hex_byte_agreement toyC ["UR:A"] "0a14" [10, 20] [10, 20]
      .Incomplete .OddLength).2.2.1 (by decide),
    (hex_byte_agreement toyC ["UR:A"] "4z" [10, 20] [10, 20]
      .Incomplete (.InvalidHexCharacter 'z' 1)).2.2.2 (by decide)⟩
